import Mathlib

/-!
Shallow embedding of `superconductivity/complex_conductivity.py`.

The module computes the complex conductivity ratio of a superconductor,
either in a closed-form asymptotic limit (`limit`) or by numerical
quadrature (`numeric`).  The numeric primitives that the Python code takes
from numpy/scipy (`exp`, `sinh`, `sqrt`, the modified Bessel functions
`i0`/`k0`, the physical constants `h`, `k` and `pi`) and the collaborators
imported from elsewhere in the package (`fermi`, `reduced_delta_bcs`,
`scipy.integrate.quad`) are modelled as parameters, so every definition is
computable and can be evaluated at rational inputs.
-/

namespace Superconductivity

/-- Numeric primitives external to the module: numpy transcendentals,
`scipy.special.i0` / `scipy.special.k0`, and the constants
`scipy.constants.h`, `scipy.constants.k`, `numpy.pi`. -/
structure Prims (R : Type) where
  exp : R → R
  sinh : R → R
  sqrt : R → R
  i0 : R → R
  k0 : R → R
  pi : R
  h : R
  k : R

/-- The errors the `limit` function can raise: the `AssertionError` from the
temperature assert (the spec's `InvalidArgument`) and the
`ValueError("Incompatible array sizes")` (the spec's `IncompatibleShapes`). -/
inductive PyErr where
  | invalidArgument
  | incompatibleShapes
  deriving DecidableEq, Repr

/-- A numpy argument: a bare scalar or a one-dimensional array. -/
def NpInput (R : Type) : Type := R ⊕ List R

/-- `np.atleast_1d`: a scalar becomes a one-element array. -/
def atleast_1d {R : Type} : NpInput R → List R
  | Sum.inl x => [x]
  | Sum.inr xs => xs

/-- `np.real` on a complex scalar represented as a (re, im) pair. -/
def np_real {R : Type} (z : R × R) : R := z.1

/-- `np.imag` on a complex scalar represented as a (re, im) pair. -/
def np_imag {R : Type} (z : R × R) : R := z.2

/-- A real scalar viewed as a complex value, as numpy does: zero imaginary
part. -/
def npOfReal {R : Type} [Zero R] (x : R) : R × R := (x, 0)

/-- `delta1 = np.real(delta0)` (line 42). -/
def limitDelta1 {R : Type} (delta0 : R × R) : R := np_real delta0

/-- `delta2 = np.imag(delta1)` (line 43): the imaginary part is read from
`delta1`, which is already the real part of `delta0`, so numpy reports the
imaginary part of a real scalar. -/
def limitDelta2 {R : Type} [Zero R] (delta0 : R × R) : R :=
  np_imag (npOfReal (limitDelta1 delta0))

/-- `np.ones(n) * x` applied to a size-1 array `[x]`: the replication step of
the broadcasting block (lines 47 and 49). -/
def npOnesTimes {R : Type} [Mul R] [One R] (n : ℕ) (x : R) : List R :=
  List.replicate n (1 * x)

/-- The broadcasting block of `limit` (lines 46-51): replicate the size-1
argument when exactly one side has size 1, fail when both sizes exceed 1 and
differ, otherwise keep both arrays. -/
def bcastPair {R : Type} [Mul R] [One R] (temp freq : List R) :
    Option (List R × List R) :=
  if temp.length = 1 ∧ freq.length ≠ 1 then
    match temp with
    | [t0] => some (npOnesTimes freq.length t0, freq)
    | _ => none
  else if freq.length = 1 ∧ temp.length ≠ 1 then
    match freq with
    | [f0] => some (temp, npOnesTimes temp.length f0)
    | _ => none
  else if freq.length ≠ temp.length then none
  else some (temp, freq)

/-- One entry of the conductivity arrays (lines 59-66).  After the assert on
line 45 every temperature is nonzero, so the boolean masks `temp == 0` /
`temp != 0` act entrywise and the masked assignments reduce to this
per-entry branch. -/
def sigmaEntry {R : Type} [Field R] [DecidableEq R] (P : Prims R)
    (delta1 delta2 : R) (t f : R) : R × R :=
  if t = 0 then
    (P.pi * delta2 / (P.h * f), P.pi * delta1 / (P.h * f))
  else
    let xi := P.h * f / (2 * P.k * t)
    let eta := delta1 / (P.k * t)
    (4 * delta1 / (P.h * f) * P.exp (-eta) * P.sinh xi * P.k0 xi +
       P.pi * delta2 / (P.h * f) *
         (1 + 2 * delta1 / (P.k * t) * P.exp (-eta) * P.exp (-xi) * P.i0 xi),
     P.pi * delta1 / (P.h * f) *
       (1 - P.sqrt (2 * P.pi / eta) * P.exp (-eta) -
         2 * P.exp (-eta) * P.exp (-xi) * P.i0 xi))

/-- The elementwise conductivity computation over the broadcast arrays. -/
def computeSigma {R : Type} [Field R] [DecidableEq R] (P : Prims R)
    (delta1 delta2 : R) (temp freq : List R) : List (R × R) :=
  (temp.zip freq).map (fun tf => sigmaEntry P delta1 delta2 tf.1 tf.2)

/-- The `limit` function (lines 40-66): coerce the inputs to 1-d arrays,
split the gap, assert `(temp > 0).all()`, broadcast, and compute
`sigma1 + 1j*sigma2` elementwise. -/
def limit {R : Type} [Field R] [DecidableEq R] [LinearOrder R] (P : Prims R)
    (temp freq : NpInput R) (delta0 : R × R) : Except PyErr (List (R × R)) :=
  let temps := atleast_1d temp
  let freqs := atleast_1d freq
  let delta1 := limitDelta1 delta0
  let delta2 := limitDelta2 delta0
  if temps.all (fun t => 0 < t) then
    match bcastPair temps freqs with
    | some (temps, freqs) => Except.ok (computeSigma P delta1 delta2 temps freqs)
    | none => Except.error PyErr.incompatibleShapes
  else
    Except.error PyErr.invalidArgument

/-- An integration bound for `scipy.integrate.quad`: a finite value or
`np.inf`. -/
inductive Bnd (R : Type) where
  | val (x : R)
  | inf
  deriving DecidableEq, Repr

/-- The type of the external quadrature routine `scipy.integrate.quad`:
given an integrand and two bounds it returns the pair
(integral value, estimated absolute error). -/
def QuadRoutine (R : Type) : Type := (R → R) → Bnd R → Bnd R → R × R

/-- `sigma1_kernel(e, t, w)` (lines 112-132): kernel of the integral for the
real part of the conductivity.  `fermi` is imported from
`superconductivity.fermi_functions` and is a parameter here. -/
def sigma1_kernel {R : Type} [Field R] (P : Prims R) (fermi : R → R → R)
    (e t w : R) : R :=
  2 * (fermi e t - fermi (e + w) t) * (e ^ 2 + w * e + 1) /
    (w * P.sqrt (e ^ 2 - 1) * P.sqrt ((e + w) ^ 2 - 1))

/-- `sigma2_kernel(e, t, w)` (lines 135-157): kernel of the integral for the
imaginary part of the conductivity. -/
def sigma2_kernel {R : Type} [Field R] (P : Prims R) (fermi : R → R → R)
    (e t w : R) : R :=
  (1 - 2 * fermi (e + w) t) * (e ^ 2 + w * e + 1) /
    (w * P.sqrt (1 - e ^ 2) * P.sqrt ((e + w) ^ 2 - 1))

/-- The `numeric` function (lines 69-109): coerce `temp` to a 1-d array,
compute the temperature-dependent gap via the external
`reduced_delta_bcs` (`gap` here), form the reduced variables `t` and `w`
elementwise, then loop over the entries, integrating `sigma1_kernel` over
`[1, inf)` and `sigma2_kernel` over `[1 - w, 1]`, keeping element `[0]`
(the value) of each quadrature result. -/
def numeric {R : Type} [Field R] (P : Prims R) (fermi : R → R → R)
    (gap : R → R → R) (quad : QuadRoutine R)
    (temp : NpInput R) (freq delta0 bcs : R) : List (R × R) :=
  let temps := atleast_1d temp
  let delta := temps.map (fun T => delta0 * gap (bcs * P.k * T / delta0) bcs)
  let t := (temps.zip delta).map (fun td => td.1 * P.k / td.2)
  let w := delta.map (fun d => P.h * freq / d)
  (t.zip w).map (fun tw =>
    ((quad (fun e => sigma1_kernel P fermi e tw.1 tw.2)
        (Bnd.val 1) Bnd.inf).1,
     (quad (fun e => sigma2_kernel P fermi e tw.1 tw.2)
        (Bnd.val (1 - tw.2)) (Bnd.val 1)).1))

/-! ### Concrete instances over ℚ

The transcendental primitives have no exact rational counterpart; these
stand-ins only serve to evaluate the structural theorems at concrete
inputs. -/

/-- A concrete rational instantiation of the numeric primitives. -/
def primsQ : Prims ℚ where
  exp := fun x => x
  sinh := fun x => x
  sqrt := fun x => x
  i0 := fun x => x
  k0 := fun x => x
  pi := 3
  h := 2
  k := 5

/-- A concrete rational stand-in for the `fermi` collaborator. -/
def fermiQ : ℚ → ℚ → ℚ := fun e t => e + t

/-- A concrete rational stand-in for the `reduced_delta_bcs` collaborator. -/
def gapQ : ℚ → ℚ → ℚ := fun _ _ => 1

/-- A concrete quadrature stand-in that reports a zero error estimate. -/
def quadNoErr : QuadRoutine ℚ := fun g a _ =>
  match a with
  | Bnd.val x => (g x, 0)
  | Bnd.inf => (g 0, 0)

/-- A concrete quadrature stand-in returning the same values as
`quadNoErr` but reporting a huge error estimate, i.e. a quadrature that
failed to converge. -/
def quadBigErr : QuadRoutine ℚ := fun g a _ =>
  match a with
  | Bnd.val x => (g x, 1000000)
  | Bnd.inf => (g 0, 1000000)

/-! ### Helper lemmas -/

/-- The arrays produced by the broadcasting block have equal lengths, namely
the common broadcast size of the inputs. -/
theorem bcastPair_lengths {R : Type} [Mul R] [One R] {temp freq T F : List R}
    (h : bcastPair temp freq = some (T, F)) :
    T.length = (if temp.length = 1 then freq.length else temp.length) ∧
      F.length = T.length := by
  unfold bcastPair at h
  split at h
  · rename_i hc
    match temp, hc with
    | [t0], hc =>
      simp only [Option.some.injEq, Prod.mk.injEq] at h
      obtain ⟨hT, hF⟩ := h
      subst hT hF
      simp [npOnesTimes]
  · split at h
    · rename_i hc
      match freq, hc with
      | [f0], hc =>
        simp only [Option.some.injEq, Prod.mk.injEq] at h
        obtain ⟨hT, hF⟩ := h
        subst hT hF
        simp [npOnesTimes, hc.2]
    · split at h
      · exact absurd h (by simp)
      · rename_i hlen
        simp only [Option.some.injEq, Prod.mk.injEq] at h
        obtain ⟨hT, hF⟩ := h
        subst hT hF
        constructor
        · split <;> simp_all
        · simp_all [not_ne_iff.mp hlen]

/-- Broadcasting preserves positivity of the temperature entries. -/
theorem bcastPair_pos {R : Type} [MulOneClass R] [Zero R] [PartialOrder R]
    {temp freq T F : List R}
    (h : bcastPair temp freq = some (T, F)) (hpos : ∀ t ∈ temp, 0 < t) :
    ∀ t ∈ T, 0 < t := by
  unfold bcastPair at h
  split at h
  · rename_i hc
    match temp, hc with
    | [t0], hc =>
      simp only [Option.some.injEq, Prod.mk.injEq] at h
      obtain ⟨hT, _⟩ := h
      subst hT
      intro t ht
      simp only [npOnesTimes, List.mem_replicate] at ht
      rw [ht.2, one_mul]
      exact hpos t0 (by simp)
  · split at h
    · rename_i hc
      match freq, hc with
      | [f0], hc =>
        simp only [Option.some.injEq, Prod.mk.injEq] at h
        obtain ⟨hT, _⟩ := h
        subst hT
        exact hpos
    · split at h
      · exact absurd h (by simp)
      · simp only [Option.some.injEq, Prod.mk.injEq] at h
        obtain ⟨hT, _⟩ := h
        subst hT
        exact hpos

/-! ### Claims -/

/-- C1: the spec says a `temp == 0` entry takes the distinguished
zero-temperature branch and the call succeeds; but the assert on line 45
checks `(temp > 0).all()` (strictly), so `temp = 0` is rejected with
`AssertionError` before the dead zero-temperature branch (lines 59-60) can
run.  Evaluating the model at the failing input `temp = 0`, `freq = 1`,
`delta0 = 1` yields the `InvalidArgument` error, not the claimed values. -/
theorem limit_rejects_zero_temperature :
    limit primsQ (Sum.inl 0) (Sum.inl 1) ((1 : ℚ), 0) =
      Except.error PyErr.invalidArgument := by
  rfl

/-- C6: the spec says `InvalidArgument` is raised exactly for negative
temperature entries, with zero accepted; the code rejects the nonnegative
array `[0, 1]` as well, because the assert demands strict positivity even
though its own message reads "Temperature must be >= 0.". -/
theorem limit_rejects_zero_entry :
    limit primsQ (Sum.inr [0, 1]) (Sum.inl 2) ((1 : ℚ), 0) =
      Except.error PyErr.invalidArgument := by
  rfl

/-- The conductivity entry with every `delta2`-proportional term removed,
written from the spec's description of the vanishing loss terms. -/
def sigmaEntryNoLoss {R : Type} [Field R] [DecidableEq R] (P : Prims R)
    (delta1 : R) (t f : R) : R × R :=
  if t = 0 then
    (0, P.pi * delta1 / (P.h * f))
  else
    let xi := P.h * f / (2 * P.k * t)
    let eta := delta1 / (P.k * t)
    (4 * delta1 / (P.h * f) * P.exp (-eta) * P.sinh xi * P.k0 xi,
     P.pi * delta1 / (P.h * f) *
       (1 - P.sqrt (2 * P.pi / eta) * P.exp (-eta) -
         2 * P.exp (-eta) * P.exp (-xi) * P.i0 xi))

/-- C2: `delta2` is computed as the imaginary part of `delta1 = Re(delta0)`,
hence is `0` for every complex `delta0`, and consequently every
`delta2`-proportional term of `sigma1` vanishes: the conductivity entry
equals its loss-free form. -/
theorem limitDelta2_eq_zero_and_loss_terms_vanish {R : Type} [Field R]
    [DecidableEq R] (P : Prims R) (delta0 : R × R) (t f : R) :
    limitDelta2 delta0 = 0 ∧
      sigmaEntry P (limitDelta1 delta0) (limitDelta2 delta0) t f =
        sigmaEntryNoLoss P (limitDelta1 delta0) t f := by
  refine ⟨rfl, ?_⟩
  unfold sigmaEntry sigmaEntryNoLoss limitDelta2 npOfReal np_imag
  split <;> simp

/-- C5: the two integration kernels are pure functions equal to the spec's
formulas, for all reduced energy `e`, temperature `t` and frequency `w`. -/
theorem kernels_match_spec_formulas {R : Type} [Field R] (P : Prims R)
    (fermi : R → R → R) (e t w : R) :
    sigma1_kernel P fermi e t w =
      2 * (fermi e t - fermi (e + w) t) * (e ^ 2 + w * e + 1) /
        (w * P.sqrt (e ^ 2 - 1) * P.sqrt ((e + w) ^ 2 - 1)) ∧
    sigma2_kernel P fermi e t w =
      (1 - 2 * fermi (e + w) t) * (e ^ 2 + w * e + 1) /
        (w * P.sqrt (1 - e ^ 2) * P.sqrt ((e + w) ^ 2 - 1)) :=
  ⟨rfl, rfl⟩

/-- C3: when every temperature entry is strictly positive and the shapes
are broadcast-compatible, `limit` succeeds and each output entry, in the
order of the broadcast input, is
`sigma1 = 4 delta1/(h f) exp(-eta) sinh(xi) K0(xi)
        + pi delta2/(h f) (1 + 2 delta1/(k T) exp(-eta) exp(-xi) I0(xi))`
and
`sigma2 = pi delta1/(h f) (1 - sqrt(2 pi/eta) exp(-eta)
        - 2 exp(-eta) exp(-xi) I0(xi))`
with `xi = h f/(2 k T)`, `eta = delta1/(k T)`, `delta1 = Re(delta0)` and
`delta2` read as in line 43. -/
theorem limit_positive_temp_formula {R : Type} [Field R] [DecidableEq R]
    [LinearOrder R] (P : Prims R) (temp freq : NpInput R) (delta0 : R × R)
    (T F : List R)
    (hpos : ∀ t ∈ atleast_1d temp, 0 < t)
    (hb : bcastPair (atleast_1d temp) (atleast_1d freq) = some (T, F)) :
    limit P temp freq delta0 =
      Except.ok ((T.zip F).map (fun tf =>
        (4 * np_real delta0 / (P.h * tf.2) *
            P.exp (-(np_real delta0 / (P.k * tf.1))) *
            P.sinh (P.h * tf.2 / (2 * P.k * tf.1)) *
            P.k0 (P.h * tf.2 / (2 * P.k * tf.1)) +
          P.pi * limitDelta2 delta0 / (P.h * tf.2) *
            (1 + 2 * np_real delta0 / (P.k * tf.1) *
              P.exp (-(np_real delta0 / (P.k * tf.1))) *
              P.exp (-(P.h * tf.2 / (2 * P.k * tf.1))) *
              P.i0 (P.h * tf.2 / (2 * P.k * tf.1))),
         P.pi * np_real delta0 / (P.h * tf.2) *
           (1 - P.sqrt (2 * P.pi / (np_real delta0 / (P.k * tf.1))) *
              P.exp (-(np_real delta0 / (P.k * tf.1))) -
             2 * P.exp (-(np_real delta0 / (P.k * tf.1))) *
              P.exp (-(P.h * tf.2 / (2 * P.k * tf.1))) *
              P.i0 (P.h * tf.2 / (2 * P.k * tf.1)))))) := by
  have hall : (atleast_1d temp).all (fun t => decide (0 < t)) = true := by
    rw [List.all_eq_true]
    intro t ht
    exact decide_eq_true (hpos t ht)
  have hTpos : ∀ t ∈ T, 0 < t := bcastPair_pos hb hpos
  unfold limit
  simp only [hall, eq_self_iff_true, if_true, hb]
  unfold computeSigma
  congr 1
  apply List.map_congr_left
  intro tf htf
  obtain ⟨t, f⟩ := tf
  have ht : t ∈ T := (List.of_mem_zip htf).1
  have htne : t ≠ 0 := ne_of_gt (hTpos t ht)
  unfold sigmaEntry
  rw [if_neg htne]
  rfl

/-- Fusing the zip/map chain of intermediate arrays in `numeric` into a
single elementwise map over the temperature list. -/
theorem map_zip_chain {α β : Type} (l : List α) (d : α → α) (e : α × α → α)
    (c : α → α) (F : α × α → β) :
    ((((l.zip (l.map d)).map e).zip ((l.map d).map c)).map F) =
      l.map (fun x => F (e (x, d x), c (d x))) := by
  induction l with
  | nil => rfl
  | cons x xs ih => simp only [List.map_cons, List.zip_cons_cons, ih]

/-- C4: `numeric` computes, for each temperature entry independently and in
input order, the gap `delta = delta0 * gap(bcs k T / delta0, bcs)`, the
reduced variables `t = k T / delta` and `w = h f / delta`, and returns the
complex pair whose real part is the quadrature of `sigma1_kernel` over
`[1, inf)` and whose imaginary part is the quadrature of `sigma2_kernel`
over `[1 - w, 1]`, the lower bound per entry. -/
theorem numeric_per_entry_integration {R : Type} [Field R] (P : Prims R)
    (fermi gap : R → R → R) (quad : QuadRoutine R) (temp : NpInput R)
    (f d0 bcs : R) :
    numeric P fermi gap quad temp f d0 bcs =
      (atleast_1d temp).map (fun T =>
        ((quad (fun e => sigma1_kernel P fermi e
            (T * P.k / (d0 * gap (bcs * P.k * T / d0) bcs))
            (P.h * f / (d0 * gap (bcs * P.k * T / d0) bcs)))
          (Bnd.val 1) Bnd.inf).1,
         (quad (fun e => sigma2_kernel P fermi e
            (T * P.k / (d0 * gap (bcs * P.k * T / d0) bcs))
            (P.h * f / (d0 * gap (bcs * P.k * T / d0) bcs)))
          (Bnd.val (1 - P.h * f / (d0 * gap (bcs * P.k * T / d0) bcs)))
          (Bnd.val 1)).1)) := by
  unfold numeric
  exact map_zip_chain (atleast_1d temp) _ _ _ _

/-- C9: the claim says a quadrature convergence failure is surfaced with the
partial result and estimated error; but `numeric` keeps only element `[0]`
of each `quad` result, so a quadrature reporting a huge error estimate
(here `1000000`) produces exactly the same output as one reporting no error
at all, and no failure is signalled. -/
theorem numeric_discards_error_estimate :
    (quadBigErr (fun e => e) (Bnd.val 0) Bnd.inf).2 = 1000000 ∧
      numeric primsQ fermiQ gapQ quadBigErr (Sum.inr [1]) 1 1 2 =
        numeric primsQ fermiQ gapQ quadNoErr (Sum.inr [1]) 1 1 2 :=
  ⟨rfl, rfl⟩

/-- C9 (amended): `numeric` uses only the value component of each quadrature
result — two quadrature routines agreeing on values but differing in the
reported error estimates yield identical outputs, so convergence failures
are silently discarded rather than surfaced. -/
theorem numeric_depends_only_on_quad_values {R : Type} [Field R]
    (P : Prims R) (fermi gap : R → R → R) (q1 q2 : QuadRoutine R)
    (temp : NpInput R) (f d0 bcs : R)
    (h : ∀ g a b, (q1 g a b).1 = (q2 g a b).1) :
    numeric P fermi gap q1 temp f d0 bcs =
      numeric P fermi gap q2 temp f d0 bcs := by
  unfold numeric
  apply List.map_congr_left
  intro tw _
  exact Prod.ext (h _ _ _) (h _ _ _)

/-- C9 (amended) witness: the two concrete quadrature stand-ins agree on
values, and `numeric` returns identical outputs for them. -/
theorem numeric_depends_only_on_quad_values_witness :
    (∀ g a b, (quadBigErr g a b).1 = (quadNoErr g a b).1) ∧
      numeric primsQ fermiQ gapQ quadBigErr (Sum.inr [2]) 3 1 2 =
        numeric primsQ fermiQ gapQ quadNoErr (Sum.inr [2]) 3 1 2 :=
  ⟨fun g a _ => by cases a <;> rfl,
   numeric_depends_only_on_quad_values primsQ fermiQ gapQ quadBigErr
     quadNoErr (Sum.inr [2]) 3 1 2 (fun g a _ => by cases a <;> rfl)⟩

/-- C7 (counterexample): a call with `temp` of size 3 and `freq` of size 2 —
both sizes above 1 and unequal — does not fail with `IncompatibleShapes`
when `temp` contains a negative entry, because the temperature assert runs
before the shape check. -/
theorem limit_shape_mismatch_counterexample :
    [(-1 : ℚ), 1, 2].length = 3 ∧ [(1 : ℚ), 2].length = 2 ∧
      limit primsQ (Sum.inr [-1, 1, 2]) (Sum.inr [1, 2]) ((1 : ℚ), 0) =
        Except.error PyErr.invalidArgument ∧
      PyErr.invalidArgument ≠ PyErr.incompatibleShapes :=
  ⟨rfl, rfl, rfl, by decide⟩

/-- C7 (amended): when every temperature entry passes the strict positivity
assert, a call in which both `temp` and `freq` have size greater than 1 and
unequal lengths fails with `IncompatibleShapes`, and no partial result is
returned. -/
theorem limit_shape_mismatch_incompatibleShapes {R : Type} [Field R]
    [DecidableEq R] [LinearOrder R] (P : Prims R) (temp freq : NpInput R)
    (delta0 : R × R)
    (hpos : ∀ t ∈ atleast_1d temp, 0 < t)
    (ht1 : (atleast_1d temp).length ≠ 1)
    (hf1 : (atleast_1d freq).length ≠ 1)
    (hne : (atleast_1d freq).length ≠ (atleast_1d temp).length) :
    limit P temp freq delta0 = Except.error PyErr.incompatibleShapes := by
  have hall : (atleast_1d temp).all (fun t => decide (0 < t)) = true := by
    rw [List.all_eq_true]
    intro t ht
    exact decide_eq_true (hpos t ht)
  have hb : bcastPair (atleast_1d temp) (atleast_1d freq) = none := by
    unfold bcastPair
    rw [if_neg (fun hc => ht1 hc.1), if_neg (fun hc => hf1 hc.1), if_pos hne]
  unfold limit
  simp only [hall, eq_self_iff_true, if_true, hb]

/-- C7 (amended) witness: `temp` of size 3 with positive entries against
`freq` of size 2 fails with `IncompatibleShapes`. -/
theorem limit_shape_mismatch_incompatibleShapes_witness :
    (∀ t ∈ atleast_1d (Sum.inr [(1 : ℚ), 2, 3]), 0 < t) ∧
      (atleast_1d (Sum.inr [(1 : ℚ), 2, 3] : NpInput ℚ)).length ≠ 1 ∧
      (atleast_1d (Sum.inr [(1 : ℚ), 2] : NpInput ℚ)).length ≠ 1 ∧
      (atleast_1d (Sum.inr [(1 : ℚ), 2] : NpInput ℚ)).length ≠
        (atleast_1d (Sum.inr [(1 : ℚ), 2, 3] : NpInput ℚ)).length ∧
      limit primsQ (Sum.inr [1, 2, 3]) (Sum.inr [1, 2]) ((1 : ℚ), 0) =
        Except.error PyErr.incompatibleShapes :=
  ⟨by decide, by decide, by decide, by decide,
   limit_shape_mismatch_incompatibleShapes primsQ (Sum.inr [1, 2, 3])
     (Sum.inr [1, 2]) ((1 : ℚ), 0) (by decide) (by decide) (by decide)
     (by decide)⟩

/-- The broadcasting block on a size-1 frequency array against a larger
temperature array replicates the frequency. -/
theorem bcastPair_scalar_freq {R : Type} [MulOneClass R] (temps : List R)
    (f : R) (h : 1 < temps.length) :
    bcastPair temps [f] = some (temps, List.replicate temps.length f) := by
  unfold bcastPair
  rw [if_neg (fun hc => by omega), if_pos ⟨rfl, by omega⟩]
  simp [npOnesTimes, one_mul]

/-- The broadcasting block on a size-1 temperature array against a larger
frequency array replicates the temperature. -/
theorem bcastPair_scalar_temp {R : Type} [MulOneClass R] (freqs : List R)
    (t0 : R) (h : 1 < freqs.length) :
    bcastPair [t0] freqs = some (List.replicate freqs.length t0, freqs) := by
  unfold bcastPair
  rw [if_pos ⟨rfl, by omega⟩]
  simp [npOnesTimes, one_mul]

/-- The broadcasting block keeps arrays of equal length unchanged. -/
theorem bcastPair_eq_length {R : Type} [Mul R] [One R] (temps freqs : List R)
    (h : freqs.length = temps.length) :
    bcastPair temps freqs = some (temps, freqs) := by
  unfold bcastPair
  rw [if_neg (fun hc => hc.2 (h.trans hc.1)),
    if_neg (fun hc => hc.2 (h ▸ hc.1)), if_neg (fun hc => hc h)]

/-- C8: broadcasting equivalence.  A size-N temperature array against a
scalar frequency gives exactly the same result as against the frequency
replicated to length N, and symmetrically a scalar temperature against a
size-N frequency array gives the same result as the temperature replicated
to length N. -/
theorem limit_broadcast_equiv {R : Type} [Field R] [DecidableEq R]
    [LinearOrder R] (P : Prims R) (temps freqs : List R) (t0 f : R)
    (delta0 : R × R) (hN : 1 < temps.length) (hM : 1 < freqs.length) :
    limit P (Sum.inr temps) (Sum.inl f) delta0 =
      limit P (Sum.inr temps) (Sum.inr (List.replicate temps.length f))
        delta0 ∧
    limit P (Sum.inl t0) (Sum.inr freqs) delta0 =
      limit P (Sum.inr (List.replicate freqs.length t0)) (Sum.inr freqs)
        delta0 := by
  constructor
  · simp only [limit, atleast_1d]
    rw [bcastPair_scalar_freq temps f hN,
      bcastPair_eq_length temps (List.replicate temps.length f) (by simp)]
  · by_cases h0 : 0 < t0
    · have hA : ([t0].all fun t => decide (0 < t)) = true := by simp [h0]
      have hB : ((List.replicate freqs.length t0).all
          fun t => decide (0 < t)) = true := by
        rw [List.all_eq_true]
        intro t ht
        rw [List.eq_of_mem_replicate ht]
        exact decide_eq_true h0
      simp only [limit, atleast_1d, hA, hB, eq_self_iff_true, if_true]
      rw [bcastPair_scalar_temp freqs t0 hM,
        bcastPair_eq_length (List.replicate freqs.length t0) freqs (by simp)]
    · have hA : ([t0].all fun t => decide (0 < t)) = false := by simp [h0]
      have hB : ((List.replicate freqs.length t0).all
          fun t => decide (0 < t)) = false := by
        rw [List.all_eq_false]
        exact ⟨t0, List.mem_replicate.mpr ⟨by omega, rfl⟩, by simp [h0]⟩
      simp only [limit, atleast_1d, hA, hB, Bool.false_eq_true, if_false]

/-- C8 witness: a concrete size-2 temperature array against a scalar
frequency, and a scalar temperature against a concrete size-2 frequency
array. -/
theorem limit_broadcast_equiv_witness :
    1 < [(1 : ℚ), 2].length ∧ 1 < [(3 : ℚ), 4].length ∧
      (limit primsQ (Sum.inr [(1 : ℚ), 2]) (Sum.inl 5) ((3 : ℚ), 4) =
        limit primsQ (Sum.inr [(1 : ℚ), 2])
          (Sum.inr (List.replicate [(1 : ℚ), 2].length 5)) ((3 : ℚ), 4) ∧
      limit primsQ (Sum.inl (7 : ℚ)) (Sum.inr [(3 : ℚ), 4]) ((3 : ℚ), 4) =
        limit primsQ (Sum.inr (List.replicate [(3 : ℚ), 4].length 7))
          (Sum.inr [(3 : ℚ), 4]) ((3 : ℚ), 4)) :=
  ⟨by decide, by decide,
   limit_broadcast_equiv primsQ [1, 2] [3, 4] 7 5 ((3 : ℚ), 4) (by decide)
     (by decide)⟩

/-- The common broadcast size of two numpy 1-d sizes as `limit` realises it:
if the first has size 1 the result follows the second, otherwise the
first. -/
def broadcastSize (m n : ℕ) : ℕ := if m = 1 then n else m

/-- C10: `limit` accepts scalar inputs (coerced by `atleast_1d`) and on
success always returns an array — never a bare scalar — whose length is the
common broadcast size of the two inputs; in particular two scalars give a
size-1 array. -/
theorem limit_output_length_broadcast {R : Type} [Field R] [DecidableEq R]
    [LinearOrder R] (P : Prims R) (temp freq : NpInput R) (delta0 : R × R)
    (out : List (R × R))
    (h : limit P temp freq delta0 = Except.ok out) :
    out.length =
      broadcastSize (atleast_1d temp).length (atleast_1d freq).length := by
  simp only [limit] at h
  split at h
  · split at h
    · rename_i T F heq
      obtain ⟨hT, hF⟩ := bcastPair_lengths heq
      have hout : computeSigma P (limitDelta1 delta0) (limitDelta2 delta0)
          T F = out := by
        injection h
      rw [← hout]
      unfold computeSigma broadcastSize
      rw [List.length_map, List.length_zip, hF, min_self, hT]
    · cases h
  · cases h

/-- C10 witness: scalar temperature and scalar frequency give a size-1
complex array. -/
theorem limit_output_length_broadcast_witness :
    limit primsQ (Sum.inl (1 : ℚ)) (Sum.inl 1) ((1 : ℚ), 0) =
      Except.ok (computeSigma primsQ 1 0 [1] [1]) ∧
    (computeSigma primsQ (1 : ℚ) 0 [1] [1]).length = broadcastSize 1 1 :=
  ⟨rfl,
   limit_output_length_broadcast primsQ (Sum.inl 1) (Sum.inl 1) ((1 : ℚ), 0)
     (computeSigma primsQ 1 0 [1] [1]) rfl⟩

/-- C3 witness: temperature array `[1, 2]` (all positive) against the
scalar frequency `5`, with the complex gap `3 + 4i`. -/
theorem limit_positive_temp_formula_witness :
    (∀ t ∈ atleast_1d (Sum.inr [(1 : ℚ), 2] : NpInput ℚ), 0 < t) ∧
    bcastPair (atleast_1d (Sum.inr [(1 : ℚ), 2] : NpInput ℚ))
        (atleast_1d (Sum.inl (5 : ℚ))) = some ([1, 2], npOnesTimes 2 5) ∧
    limit primsQ (Sum.inr [1, 2]) (Sum.inl 5) ((3 : ℚ), 4) =
      Except.ok ((([(1 : ℚ), 2]).zip (npOnesTimes 2 5)).map (fun tf =>
        (4 * np_real ((3 : ℚ), 4) / (primsQ.h * tf.2) *
            primsQ.exp (-(np_real ((3 : ℚ), 4) / (primsQ.k * tf.1))) *
            primsQ.sinh (primsQ.h * tf.2 / (2 * primsQ.k * tf.1)) *
            primsQ.k0 (primsQ.h * tf.2 / (2 * primsQ.k * tf.1)) +
          primsQ.pi * limitDelta2 ((3 : ℚ), 4) / (primsQ.h * tf.2) *
            (1 + 2 * np_real ((3 : ℚ), 4) / (primsQ.k * tf.1) *
              primsQ.exp (-(np_real ((3 : ℚ), 4) / (primsQ.k * tf.1))) *
              primsQ.exp (-(primsQ.h * tf.2 / (2 * primsQ.k * tf.1))) *
              primsQ.i0 (primsQ.h * tf.2 / (2 * primsQ.k * tf.1))),
         primsQ.pi * np_real ((3 : ℚ), 4) / (primsQ.h * tf.2) *
           (1 - primsQ.sqrt (2 * primsQ.pi /
              (np_real ((3 : ℚ), 4) / (primsQ.k * tf.1))) *
              primsQ.exp (-(np_real ((3 : ℚ), 4) / (primsQ.k * tf.1))) -
             2 * primsQ.exp (-(np_real ((3 : ℚ), 4) / (primsQ.k * tf.1))) *
              primsQ.exp (-(primsQ.h * tf.2 / (2 * primsQ.k * tf.1))) *
              primsQ.i0 (primsQ.h * tf.2 / (2 * primsQ.k * tf.1)))))) :=
  ⟨by decide, rfl,
   limit_positive_temp_formula primsQ (Sum.inr [1, 2]) (Sum.inl 5)
     ((3 : ℚ), 4) [1, 2] (npOnesTimes 2 5) (by decide) rfl⟩

end Superconductivity
